import Mathlib

/-
Verification of the mcsrv server registry / lifecycle core (src/mcsrv/server.py).

Python strings are modelled as lists of characters (`Str`).  Durable files are
modelled by their content: `Option Str`, where `none` means the file does not
exist.  The external session directory (`screen`), the process-stats provider
(`psutil`) and the interactive prompt are modelled as explicit parameters.

`clean_path` and `check_ram_argument` live in `mcsrv/util.py`, which is not part
of the reviewed sources; they are modelled from the spec where needed and marked
as such.
-/

namespace Mcsrv

/-- Python strings, modelled as lists of characters. -/
abbrev Str := List Char

/-- Helper to write string literals in this model. -/
def pstr (s : String) : Str := s.toList

/-- The ASCII whitespace characters stripped by Python `str.strip()`. -/
def isPySpace (c : Char) : Bool :=
  c == ' ' || c == '\t' || c == '\n' || c == '\r' || c == '\u000B' || c == '\u000C'

/-- Drop the trailing characters satisfying `p` (the tail half of `str.strip()`). -/
def dropTrail (p : Char → Bool) : Str → Str
  | [] => []
  | a :: t =>
    match dropTrail p t with
    | [] => if p a then [] else [a]
    | b :: r => a :: b :: r

/-- Python `str.strip()` (with no argument): remove leading and trailing whitespace. -/
def pyStrip (s : Str) : Str := dropTrail isPySpace (s.dropWhile isPySpace)

/-- Split a file content on newline characters, consuming the separators.
The result is never empty; `splitNl` of `"a\nb"` is `["a", "b"]`. -/
def splitNl : Str → List Str
  | [] => [[]]
  | c :: rest =>
    if c = '\n' then [] :: splitNl rest
    else
      match splitNl rest with
      | [] => [[c]]
      | h :: t => (c :: h) :: t

/-- Re-attach the newline terminator to every chunk except the last, dropping a
trailing empty chunk; composed with `splitNl` this models Python `readlines()`. -/
def reattach : List Str → List Str
  | [] => []
  | [l] => if l = [] then [] else [l]
  | h :: h2 :: t => (h ++ ['\n']) :: reattach (h2 :: t)

/-- Python `f.readlines()` of a file content. -/
def readlines (s : Str) : List Str := reattach (splitNl s)

/-- One line per element, each terminated by a newline: this is the shape every
writer in the source produces (`f.write(f"...\n")` per entry). -/
def joinLines : List Str → Str
  | [] => []
  | x :: t => x ++ '\n' :: joinLines t

/-- First-occurrence enumeration of the Python set built from a list.  Python's
set iteration order is unspecified; every theorem below treats the rewritten
registry as a set and never relies on this order. -/
def dedupAux (seen : List Str) : List Str → List Str
  | [] => []
  | x :: t => if x ∈ seen then dedupAux seen t else x :: dedupAux (x :: seen) t

/-- The server aggregate: the fields set by `Server.__init__`
(`self.path`, `self.data`, `self.jar`; the jar is kept by file name). -/
structure Server where
  path : Str
  data : List (Str × Str)
  jar : Str
deriving DecidableEq

/-- A running named session as reported by the session directory:
`Screen` from `mcsrv.util`, a `{name, pid}` descriptor per the spec. -/
structure Screen where
  name : Str
  pid : Nat
deriving DecidableEq

/-- `pathlib.Path.name`: the final component of a canonical path. -/
def pathName (p : Str) : Str :=
  (p.reverse.takeWhile (fun c => c != '/')).reverse

/-- Python `str.lower()` (ASCII suffices for every input considered here). -/
def lowerStr (s : Str) : Str := s.map Char.toLower

/-- `Server.id`: the final path component, case-folded. -/
def Server.id (self : Server) : Str := lowerStr (pathName self.path)

/-- `Server.screen_name`: `f"mc-{self.id}"`. -/
def Server.screen_name (self : Server) : Str := pstr r"mc-" ++ Server.id self

/-- `Server.screen_handle`: the first running screen whose name equals the
derived session name, if any (`None` otherwise). -/
def Server.screen_handle (screens : List Screen) (self : Server) : Option Screen :=
  screens.find? (fun scr => decide (scr.name = Server.screen_name self))

/-- `Server.running`: whether a screen handle was found. -/
def Server.running (screens : List Screen) (self : Server) : Bool :=
  (Server.screen_handle screens self).isSome

/-- Python dict assignment `d[k] = v` on an insertion-ordered mapping: replace
in place if the key exists, append otherwise. -/
def dictInsert : List (Str × Str) → Str → Str → List (Str × Str)
  | [], k, v => [(k, v)]
  | (k0, v0) :: t, k, v =>
    if k0 = k then (k, v) :: t else (k0, v0) :: dictInsert t k v

/-- Python dict lookup `d.get(k)` / `d[k]` on the ordered mapping. -/
def dictGet : List (Str × Str) → Str → Option Str
  | [], _ => none
  | (k0, v0) :: t, k => if k0 = k then some v0 else dictGet t k

/-- Python `line.split("=", 1)`: `none` when no `'='` occurs (a one-element
split), otherwise the part before the first `'='` and everything after it. -/
def splitFirstEq : Str → Option (Str × Str)
  | [] => none
  | c :: t =>
    if c = '=' then some ([], t)
    else (splitFirstEq t).map (fun kv => (c :: kv.1, kv.2))

/-- One loop iteration of `Server._load_data`: strip the line, skip it when it
begins with `'#'` or contains no `'='`, otherwise assign into the dict. -/
def parseLine (d : List (Str × Str)) (raw : Str) : List (Str × Str) :=
  if (pyStrip raw).head? = some '#' then d
  else
    match splitFirstEq (pyStrip raw) with
    | none => d
    | some kv => dictInsert d kv.1 kv.2

/-- `Server._load_data`, as a function of the metadata file content: an absent
file yields an empty mapping (with a diagnostic); otherwise the file is parsed
line by line. -/
def Server.loadData (file : Option Str) : List (Str × Str) :=
  match file with
  | none => []
  | some content => (readlines content).foldl parseLine []

/-- `Server.save_data`: rewrite the metadata file wholesale, one `key=value`
line per entry in mapping order. -/
def Server.save_data (data : List (Str × Str)) : Str :=
  joinLines (data.map (fun kv => kv.1 ++ '=' :: kv.2))

/-- `Server.get_cached_server_paths`: `[]` when the registry file is absent,
otherwise each line of the file, stripped. -/
def Server.get_cached_server_paths (rc : Option Str) : List Str :=
  match rc with
  | none => []
  | some content => (readlines content).map pyStrip

/-- `Server.unregister_paths`: a no-op when `paths` is empty; otherwise rewrite
the registry file with the set difference `registered - paths`, one entry per
line (set iteration order fixed to first occurrence; see `dedupAux`). -/
def Server.unregister_paths (rc : Option Str) (paths : List Str) : Option Str :=
  if paths = [] then rc
  else
    some (joinLines
      ((dedupAux [] (Server.get_cached_server_paths rc)).filter
        (fun x => decide (x ∉ paths))))

/-- The construction failures `Server.__init__` can raise: `FileNotFoundError`
for a missing directory, and `click.exceptions.Exit(1)` from `_locate_jar`
(no candidate found, or the interactive prompt aborted). -/
inductive CErr
  | notFound
  | exitNoJar
  | exitCancelled
deriving DecidableEq

/-- The external environment a `Server` is constructed against.
`canon` models `clean_path(pathlib.Path(p).absolute())` from `mcsrv.util`
(not in src/) — per the spec it canonicalizes to an absolute directory path
with symlinks and relative segments resolved.  The remaining fields model the
filesystem (`is_dir`, the metadata file, `glob("*.jar")`, `is_file`) and the
`inquirer` disambiguation prompt. -/
structure Env where
  canon : Str → Str
  dirExists : Str → Bool
  meta : Str → Option Str
  jarsIn : Str → List Str
  jarFileExists : Str → Str → Bool
  promptChoice : List Str → Option Str

def jarKey : Str := pstr r"jar"

def ramKey : Str := pstr r"ram"

/-- The scan half of `Server._locate_jar`: glob for candidates; zero is fatal,
one is auto-selected and persisted into the mapping, more than one asks the
prompt (an aborted prompt is fatal). -/
def locateJarScan (env : Env) (p : Str) (data : List (Str × Str)) :
    Except CErr (Str × List (Str × Str)) :=
  match env.jarsIn p with
  | [] => .error .exitNoJar
  | [j] => .ok (j, dictInsert data jarKey j)
  | js =>
    match env.promptChoice js with
    | none => .error .exitCancelled
    | some j => .ok (j, dictInsert data jarKey j)

/-- `Server._locate_jar`: use the saved `jar` entry when it names an existing
file, otherwise fall back to the scan. -/
def locate_jar (env : Env) (p : Str) (data : List (Str × Str)) :
    Except CErr (Str × List (Str × Str)) :=
  match dictGet data jarKey with
  | some name =>
    if env.jarFileExists p name then .ok (name, data) else locateJarScan env p data
  | none => locateJarScan env p data

/-- `Server.__init__` as a function of the environment: canonicalize the path,
fail with `FileNotFoundError` unless it is a directory, load the metadata,
resolve the jar.  (The final `save_data` call rewrites only the per-server
metadata file; it never touches the registry, which is what the registry
theorems below are about.) -/
def constructServer (env : Env) (rawPath : Str) : Except CErr Server :=
  let p := env.canon rawPath
  if env.dirExists p then
    match locate_jar env p (Server.loadData (env.meta p)) with
    | .ok jd => .ok ⟨p, jd.2, jd.1⟩
    | .error e => .error e
  else .error .notFound

/-- Whether construction of the server at a cached path succeeds. -/
def constructOk (env : Env) (p : Str) : Bool :=
  match constructServer env p with
  | .ok _ => true
  | .error _ => false

/-- Whether construction fails with `FileNotFoundError` (stale registry entry). -/
def constructMissing (env : Env) (p : Str) : Bool :=
  match constructServer env p with
  | .error .notFound => true
  | _ => false

def exceptIsOk : Except CErr (List Server × Option Str × List Str) → Bool
  | .ok _ => true
  | .error _ => false

/-- The diagnostic `get_registered_servers` echoes for a stale path. -/
def warnMsg (p : Str) : Str :=
  pstr r"mcsrv: warn: server directory " ++ p ++ pstr r" not existing, removing it"

/-- The diagnostic `register` echoes (via `self.print`) on an id conflict. -/
def conflictMsg (selfId otherPath : Str) : Str :=
  pstr r"mcsrv: " ++ selfId ++ pstr r": there is already a server with id " ++
    selfId ++ pstr r" at " ++ otherPath ++ pstr r". rename this or that directory"

/-- The loop of `Server.get_registered_servers`: construct a server per cached
path; `FileNotFoundError` is caught (the path is collected and a warning is
echoed); any other construction failure propagates. -/
def grsGo (env : Env) : List Str → Except CErr (List Server × List Str × List Str)
  | [] => .ok ([], [], [])
  | p :: rest =>
    match constructServer env p with
    | .ok s =>
      match grsGo env rest with
      | .error e => .error e
      | .ok r => .ok (s :: r.1, r.2.1, r.2.2)
    | .error .notFound =>
      match grsGo env rest with
      | .error e => .error e
      | .ok r => .ok (r.1, p :: r.2.1, warnMsg p :: r.2.2)
    | .error .exitNoJar => .error .exitNoJar
    | .error .exitCancelled => .error .exitCancelled

/-- `Server.get_registered_servers`: run the loop, then prune the collected
stale paths via `unregister_paths`.  Returns the constructed servers, the new
registry file content, and the echoed diagnostics.  On a propagated
construction failure the prune is never reached and the registry is untouched. -/
def Server.get_registered_servers (env : Env) (rc : Option Str) :
    Except CErr (List Server × Option Str × List Str) :=
  match grsGo env (Server.get_cached_server_paths rc) with
  | .error e => .error e
  | .ok r => .ok (r.1, Server.unregister_paths rc r.2.1, r.2.2)

/-- How a `register` call ended: a fresh append, an idempotent no-op, an id
conflict (`click Exit(1)` after the conflict message), or a propagated
construction error from the embedded listing. -/
inductive RegStatus
  | registered
  | idempotent
  | conflict
  | listError (e : CErr)
deriving DecidableEq

/-- Appending one line to the registry file: `open("a" if is_file else "w")`
followed by `f.write(f"{path}\n")`. -/
def appendLine (rc : Option Str) (p : Str) : Option Str :=
  some ((rc.getD []) ++ p ++ ['\n'])

/-- `Server.register`: list the registered servers (which may prune stale
paths); stop at the first one sharing this entity's id — a no-op when it has
the same canonical path, an id-conflict failure otherwise; append the path
when no id matches.  Returns the registry content after the call, the echoed
diagnostics, and the outcome. -/
def Server.register (env : Env) (rc : Option Str) (self : Server) :
    Option Str × List Str × RegStatus :=
  match Server.get_registered_servers env rc with
  | .error e => (rc, [], .listError e)
  | .ok r =>
    match r.1.find? (fun o => decide (Server.id o = Server.id self)) with
    | some other =>
      if other.path = self.path then (r.2.1, r.2.2, .idempotent)
      else (r.2.1, r.2.2 ++ [conflictMsg (Server.id self) other.path], .conflict)
    | none => (appendLine r.2.1 self.path, r.2.2, .registered)

/-- The process-stats provider (`psutil`): the child pids of a pid, the CPU
percentage of a pid sampled over an interval, and its resident memory in bytes. -/
structure StatsProvider where
  children : Nat → List Nat
  cpuPercent : Nat → ℚ → ℚ
  rssBytes : Nat → Nat

/-- Python `round(x, 2)` on the exact rational value.  (Python rounds binary
doubles half-to-even; we round the exact rational half-up.  The two agree away
from ties, and every value appearing in the theorems below is far from a tie.) -/
def round2 (q : ℚ) : ℚ := ((⌊q * 100 + 1 / 2⌋ : ℤ) : ℚ) / 100

/-- `Server.get_stats`: `(0, 0)` when no screen handle exists (`not
self.running`); otherwise take the FIRST child process of the screen's pid —
an unguarded `children()[0]`, so an empty child list raises `IndexError`
(modelled as `none`) — and report its CPU over a 2 second interval and its
resident memory divided by `1000000000`, rounded to two decimal places. -/
def Server.get_stats (screens : List Screen) (sp : StatsProvider) (self : Server) :
    Option (ℚ × ℚ) :=
  match Server.screen_handle screens self with
  | none => some (0, 0)
  | some scr =>
    match (sp.children scr.pid).head? with
    | none => none
    | some child =>
      some (sp.cpuPercent child 2, round2 ((sp.rssBytes child : ℚ) / 1000000000))

/-- Modelled from the spec: `check_ram_argument` lives in `mcsrv/util.py`,
which is not part of the reviewed sources.  Per the spec the token is a
numeric magnitude followed by a unit letter (e.g. `"4G"`, `"512M"`); `"4g"`
normalizes to `"4G"`; `"4"` (no unit) fails validation (`InvalidArgument`,
modelled as `none`). -/
def check_ram_argument (s : Str) : Option Str :=
  match s.reverse with
  | [] => none
  | u :: revDigits =>
    if u.isAlpha && !revDigits.isEmpty && revDigits.all Char.isDigit
    then some ((Char.toUpper u :: revDigits).reverse)
    else none

/-- The observable outcome of the `ram` setter: the entity, the metadata file
content, and whether `InvalidArgument` was raised. -/
structure RamSetResult where
  server : Server
  file : Option Str
  raised : Bool
deriving DecidableEq

/-- The `ram` setter: `self.data["ram"] = check_ram_argument(val);
self.save_data()`.  When validation raises, it does so before the assignment:
neither the mapping nor the file changes. -/
def Server.setRam (self : Server) (file : Option Str) (val : Str) : RamSetResult :=
  match check_ram_argument val with
  | none => ⟨self, file, true⟩
  | some norm =>
    ⟨⟨self.path, dictInsert self.data ramKey norm, self.jar⟩,
     some (Server.save_data (dictInsert self.data ramKey norm)), false⟩

/-- The successful-construction projection used to describe the listing. -/
def okPart : Except CErr Server → Option Server
  | .ok s => some s
  | .error _ => none

/-- Test environment: only the directory `"a"` exists; scanning any directory
finds the single candidate `"x.jar"`; no metadata file exists anywhere. -/
def envA : Env :=
  ⟨fun p => p, fun p => decide (p = pstr r"a"), fun _ => none,
   fun _ => [pstr r"x.jar"], fun _ _ => false, fun _ => none⟩

/-- The server `envA` constructs at path `"a"` (the single jar is
auto-selected and persisted into the mapping). -/
def serverA : Server := ⟨pstr r"a", [(jarKey, pstr r"x.jar")], pstr r"x.jar"⟩

/-- An entity at a different canonical path `"b/a"` whose derived id is also
`"a"` (same final path component). -/
def selfB : Server := ⟨pstr r"b/a", [], pstr r"x.jar"⟩

/-- A registry holding exactly the path `"a"`. -/
def rcOne : Option Str := some (joinLines [pstr r"a"])

/-- A registry holding the stale path `"g"` (whose directory does not exist in
`envA`) followed by the valid path `"a"`. -/
def rcStale : Option Str := some (joinLines [pstr r"g", pstr r"a"])

/-- Test environment: the directory `"c"` exists but contains no jar
candidate, so construction fails with the fatal no-artifact exit. -/
def envNoJar : Env :=
  ⟨fun p => p, fun p => decide (p = pstr r"c"), fun _ => none,
   fun _ => [], fun _ _ => false, fun _ => none⟩

/-- A registry holding exactly the path `"c"`. -/
def rcNoJar : Option Str := some (joinLines [pstr r"c"])

/-- A registry holding the paths `"a"` and `"b"`. -/
def rcTwo : Option Str := some (joinLines [pstr r"a", pstr r"b"])

/-- A server used for the stats theorems. -/
def serverStats : Server := ⟨pstr r"srv", [], pstr r"x.jar"⟩

/-- A session directory holding exactly the session bound to `serverStats`,
with pid 7. -/
def screensStats : List Screen := [⟨Server.screen_name serverStats, 7⟩]

/-- A stats provider whose every process has the single child pid 9, CPU 5 and
resident memory of exactly `2 ^ 30` bytes. -/
def spMem : StatsProvider := ⟨fun _ => [9], fun _ _ => 5, fun _ => 1073741824⟩

/-- A stats provider whose every process has no children. -/
def spTrivial : StatsProvider := ⟨fun _ => [], fun _ _ => 0, fun _ => 0⟩

/-- A server used for the ram-setter theorems. -/
def serverRam : Server := ⟨pstr r"srv", [], pstr r"x.jar"⟩

/-! Supporting lemmas about the string model. -/

theorem mem_dropWhile {p : Char → Bool} {x : Char} :
    ∀ {l : Str}, x ∈ l.dropWhile p → x ∈ l := by
  intro l
  induction l with
  | nil => simp
  | cons a t ih =>
    intro hx
    rw [List.dropWhile_cons] at hx
    by_cases hpa : p a = true
    · simp only [hpa, if_true] at hx
      exact List.mem_cons_of_mem a (ih hx)
    · simp only [hpa, if_false] at hx
      exact hx

theorem dropWhile_head_false {p : Char → Bool} {a : Char} :
    ∀ {l : Str}, (l.dropWhile p).head? = some a → p a = false := by
  intro l
  induction l with
  | nil => simp
  | cons b t ih =>
    intro hx
    rw [List.dropWhile_cons] at hx
    by_cases hpb : p b = true
    · rw [if_pos hpb] at hx
      exact ih hx
    · rw [if_neg hpb] at hx
      simp only [List.head?_cons, Option.some.injEq] at hx
      subst hx
      simpa using hpb

theorem dropWhile_eq_self {p : Char → Bool} {l : Str}
    (h : ∀ a, l.head? = some a → p a = false) : l.dropWhile p = l := by
  cases l with
  | nil => simp
  | cons a t =>
    rw [List.dropWhile_cons]
    simp [h a rfl]

theorem dropWhile_idem {p : Char → Bool} (l : Str) :
    (l.dropWhile p).dropWhile p = l.dropWhile p := by
  apply dropWhile_eq_self
  intro a ha
  exact dropWhile_head_false ha

theorem mem_dropTrail {p : Char → Bool} {x : Char} :
    ∀ {l : Str}, x ∈ dropTrail p l → x ∈ l := by
  intro l
  induction l with
  | nil => simp [dropTrail]
  | cons a t ih =>
    intro hx
    rw [dropTrail] at hx
    cases hdt : dropTrail p t with
    | nil =>
      rw [hdt] at hx
      by_cases hpa : p a = true
      · simp [hpa] at hx
      · simp [hpa] at hx
        simp [hx]
    | cons b r =>
      rw [hdt] at hx
      rcases List.mem_cons.mp hx with h1 | h2
      · simp [h1]
      · exact List.mem_cons_of_mem a (ih (hdt ▸ h2))

theorem dropTrail_append_single {p : Char → Bool} {c : Char} (hc : p c = true) :
    ∀ l : Str, dropTrail p (l ++ [c]) = dropTrail p l := by
  intro l
  induction l with
  | nil => simp [dropTrail, hc]
  | cons a t ih =>
    rw [List.cons_append, dropTrail, ih, dropTrail]

theorem dropTrail_idem {p : Char → Bool} :
    ∀ l : Str, dropTrail p (dropTrail p l) = dropTrail p l := by
  intro l
  induction l with
  | nil => simp [dropTrail]
  | cons a t ih =>
    rw [dropTrail]
    cases hdt : dropTrail p t with
    | nil =>
      by_cases hpa : p a = true
      · simp [hpa, dropTrail]
      · simp [hpa, dropTrail]
    | cons b r =>
      rw [hdt] at ih
      rw [dropTrail, ih]

theorem dropTrail_head {p : Char → Bool} (l : Str) :
    dropTrail p l = [] ∨ (dropTrail p l).head? = l.head? := by
  cases l with
  | nil => exact Or.inl rfl
  | cons a t =>
    rw [dropTrail]
    cases hdt : dropTrail p t with
    | nil =>
      by_cases hpa : p a = true
      · simp [hpa]
      · simp [hpa]
    | cons b r => simp

theorem pyStrip_idem (s : Str) : pyStrip (pyStrip s) = pyStrip s := by
  rw [pyStrip, pyStrip]
  have hdw : (dropTrail isPySpace (s.dropWhile isPySpace)).dropWhile isPySpace =
      dropTrail isPySpace (s.dropWhile isPySpace) := by
    apply dropWhile_eq_self
    intro a ha
    rcases dropTrail_head (p := isPySpace) (s.dropWhile isPySpace) with h | h
    · rw [h] at ha
      simp at ha
    · rw [h] at ha
      exact dropWhile_head_false ha
  rw [hdw, dropTrail_idem]

theorem pyStrip_append_newline : ∀ l : Str, pyStrip (l ++ ['\n']) = pyStrip l := by
  intro l
  induction l with
  | nil => rfl
  | cons a t ih =>
    simp only [pyStrip] at ih ⊢
    by_cases hpa : isPySpace a = true
    · rw [List.cons_append, List.dropWhile_cons, if_pos hpa, List.dropWhile_cons, if_pos hpa]
      exact ih
    · rw [List.cons_append, List.dropWhile_cons, if_neg hpa, List.dropWhile_cons, if_neg hpa]
      exact dropTrail_append_single (by rfl) (a :: t)

theorem mem_pyStrip {x : Char} {s : Str} (h : x ∈ pyStrip s) : x ∈ s :=
  mem_dropWhile (mem_dropTrail h)

theorem splitNl_ne_nil : ∀ s : Str, splitNl s ≠ [] := by
  intro s
  cases s with
  | nil => simp [splitNl]
  | cons c rest =>
    rw [splitNl]
    by_cases hc : c = '\n'
    · simp [hc]
    · simp only [hc, if_false]
      cases splitNl rest <;> simp

theorem mem_splitNl : ∀ {s l : Str}, l ∈ splitNl s → '\n' ∉ l := by
  intro s
  induction s with
  | nil =>
    intro l hl
    simp [splitNl] at hl
    simp [hl]
  | cons c rest ih =>
    intro l hl
    rw [splitNl] at hl
    by_cases hc : c = '\n'
    · simp only [hc, if_true, List.mem_cons] at hl
      rcases hl with h1 | h2
      · simp [h1]
      · exact ih h2
    · simp only [hc, if_false] at hl
      cases hsp : splitNl rest with
      | nil => exact absurd hsp (splitNl_ne_nil rest)
      | cons h t =>
        rw [hsp] at hl
        have hhead : h ∈ splitNl rest := by
          rw [hsp]
          exact List.mem_cons_self h t
        rcases List.mem_cons.mp hl with h1 | h2
        · subst h1
          intro hmem
          rcases List.mem_cons.mp hmem with h3 | h4
          · exact hc h3.symm
          · exact ih hhead h4
        · have htail : l ∈ splitNl rest := by
            rw [hsp]
            exact List.mem_cons_of_mem h h2
          exact ih htail

theorem splitNl_append {x : Str} (hx : '\n' ∉ x) :
    ∀ r : Str, splitNl (x ++ '\n' :: r) = x :: splitNl r := by
  induction x with
  | nil => intro r; simp [splitNl]
  | cons c t ih =>
    intro r
    have hc : c ≠ '\n' := fun h => hx (h ▸ List.mem_cons_self c t)
    have ht : '\n' ∉ t := fun h => hx (List.mem_cons_of_mem c h)
    rw [List.cons_append, splitNl]
    simp only [hc, if_false]
    rw [ih ht r]

theorem splitNl_joinLines {xs : List Str} (h : ∀ x ∈ xs, '\n' ∉ x) :
    splitNl (joinLines xs) = xs ++ [[]] := by
  induction xs with
  | nil => simp [joinLines, splitNl]
  | cons x t ih =>
    rw [joinLines, splitNl_append (h x (List.mem_cons_self x t)),
      ih (fun y hy => h y (List.mem_cons_of_mem x hy))]
    rfl

theorem reattach_append_nil : ∀ xs : List Str,
    reattach (xs ++ [[]]) = xs.map (fun x => x ++ ['\n']) := by
  intro xs
  induction xs with
  | nil => simp [reattach]
  | cons x t ih =>
    cases t with
    | nil => simp [reattach]
    | cons y u =>
      rw [List.cons_append, List.cons_append, reattach]
      rw [List.cons_append] at ih
      rw [ih]
      simp

theorem readlines_joinLines {xs : List Str} (h : ∀ x ∈ xs, '\n' ∉ x) :
    readlines (joinLines xs) = xs.map (fun x => x ++ ['\n']) := by
  rw [readlines, splitNl_joinLines h, reattach_append_nil]

theorem mem_reattach {l : Str} :
    ∀ {chunks : List Str}, l ∈ reattach chunks → ∃ c ∈ chunks, l = c ∨ l = c ++ ['\n'] := by
  intro chunks
  induction chunks with
  | nil => simp [reattach]
  | cons h t ih =>
    intro hl
    cases t with
    | nil =>
      rw [reattach] at hl
      by_cases hh : h = []
      · simp [hh] at hl
      · simp only [hh, if_false, List.mem_singleton] at hl
        exact ⟨h, List.mem_cons_self h [], Or.inl hl⟩
    | cons h2 u =>
      rw [reattach] at hl
      rcases List.mem_cons.mp hl with h1 | h2m
      · exact ⟨h, List.mem_cons_self h (h2 :: u), Or.inr h1⟩
      · rcases ih h2m with ⟨c, hc, hor⟩
        exact ⟨c, List.mem_cons_of_mem h hc, hor⟩

theorem mem_readlines {l : Str} {s : Str} (h : l ∈ readlines s) :
    ∃ core, '\n' ∉ core ∧ (l = core ∨ l = core ++ ['\n']) := by
  rcases mem_reattach h with ⟨c, hc, hor⟩
  exact ⟨c, mem_splitNl hc, hor⟩

/-! Supporting lemmas about the registry file representation. -/

theorem cached_joinLines {xs : List Str}
    (h : ∀ x ∈ xs, pyStrip x = x ∧ '\n' ∉ x) :
    Server.get_cached_server_paths (some (joinLines xs)) = xs := by
  rw [Server.get_cached_server_paths,
    readlines_joinLines (fun x hx => (h x hx).2), List.map_map]
  have : ∀ x ∈ xs, (pyStrip ∘ fun x => x ++ ['\n']) x = x := by
    intro x hx
    simp only [Function.comp_apply]
    rw [pyStrip_append_newline, (h x hx).1]
  calc xs.map (pyStrip ∘ fun x => x ++ ['\n'])
      = xs.map (fun x => x) := List.map_congr_left this
    _ = xs := List.map_id xs

theorem mem_cached_wf {x : Str} {rc : Option Str}
    (h : x ∈ Server.get_cached_server_paths rc) : pyStrip x = x ∧ '\n' ∉ x := by
  cases rc with
  | none => simp [Server.get_cached_server_paths] at h
  | some content =>
    rw [Server.get_cached_server_paths, List.mem_map] at h
    rcases h with ⟨l, hl, hx⟩
    rcases mem_readlines hl with ⟨core, hcore, hor⟩
    have hxcore : x = pyStrip core := by
      rcases hor with h1 | h2
      · rw [← hx, h1]
      · rw [← hx, h2, pyStrip_append_newline]
    constructor
    · rw [hxcore, pyStrip_idem]
    · rw [hxcore]
      intro hmem
      exact hcore (mem_pyStrip hmem)

theorem dedupAux_mem {x : Str} :
    ∀ {l seen : List Str}, x ∈ dedupAux seen l ↔ (x ∈ l ∧ x ∉ seen) := by
  intro l
  induction l with
  | nil => simp [dedupAux]
  | cons y t ih =>
    intro seen
    rw [dedupAux]
    by_cases hy : y ∈ seen
    · rw [if_pos hy, ih]
      constructor
      · rintro ⟨h1, h2⟩
        exact ⟨List.mem_cons_of_mem y h1, h2⟩
      · rintro ⟨h1, h2⟩
        rcases List.mem_cons.mp h1 with h3 | h4
        · exact absurd (h3 ▸ hy) h2
        · exact ⟨h4, h2⟩
    · rw [if_neg hy, List.mem_cons, ih]
      constructor
      · rintro (h1 | ⟨h1, h2⟩)
        · exact ⟨h1 ▸ List.mem_cons_self y t, h1 ▸ hy⟩
        · have : x ∉ seen := fun hx => h2 (List.mem_cons_of_mem y hx)
          exact ⟨List.mem_cons_of_mem y h1, this⟩
      · rintro ⟨h1, h2⟩
        rcases List.mem_cons.mp h1 with h3 | h4
        · exact Or.inl h3
        · by_cases hxy : x = y
          · exact Or.inl hxy
          · refine Or.inr ⟨h4, ?_⟩
            intro hx
            rcases List.mem_cons.mp hx with h5 | h6
            · exact hxy h5
            · exact h2 h6

theorem mem_cached_unregister {rc : Option Str} {paths : List Str}
    (hne : paths ≠ []) (x : Str) :
    x ∈ Server.get_cached_server_paths (Server.unregister_paths rc paths) ↔
      (x ∈ Server.get_cached_server_paths rc ∧ x ∉ paths) := by
  rw [Server.unregister_paths, if_neg hne]
  have hwfL : ∀ y ∈ (dedupAux [] (Server.get_cached_server_paths rc)).filter
      (fun x => decide (x ∉ paths)), pyStrip y = y ∧ '\n' ∉ y := by
    intro y hy
    rw [List.mem_filter, dedupAux_mem] at hy
    exact mem_cached_wf hy.1.1
  rw [cached_joinLines hwfL]
  rw [List.mem_filter]
  rw [dedupAux_mem]
  simp

/-! Supporting lemmas about the metadata mapping and the line parser. -/

theorem dictInsert_mem {y : Str × Str} {k v : Str} :
    ∀ {d : List (Str × Str)}, y ∈ dictInsert d k v → y = (k, v) ∨ y ∈ d := by
  intro d
  induction d with
  | nil => simp [dictInsert]
  | cons kv0 t ih =>
    intro hy
    rw [show dictInsert (kv0 :: t) k v =
        (if kv0.1 = k then (k, v) :: t else kv0 :: dictInsert t k v) by
      cases kv0; rfl] at hy
    by_cases hk : kv0.1 = k
    · rw [if_pos hk] at hy
      rcases List.mem_cons.mp hy with h1 | h2
      · exact Or.inl h1
      · exact Or.inr (List.mem_cons_of_mem kv0 h2)
    · rw [if_neg hk] at hy
      rcases List.mem_cons.mp hy with h1 | h2
      · exact Or.inr (h1 ▸ List.mem_cons_self kv0 t)
      · rcases ih h2 with h3 | h4
        · exact Or.inl h3
        · exact Or.inr (List.mem_cons_of_mem kv0 h4)

theorem dictInsert_fresh {k v : Str} :
    ∀ {d : List (Str × Str)}, k ∉ d.map Prod.fst → dictInsert d k v = d ++ [(k, v)] := by
  intro d
  induction d with
  | nil => simp [dictInsert]
  | cons kv0 t ih =>
    intro hk
    have hk0 : kv0.1 ≠ k := by
      intro h
      exact hk (by simp [← h])
    have hkt : k ∉ t.map Prod.fst := by
      intro h
      exact hk (by simp [h])
    rw [show dictInsert (kv0 :: t) k v =
        (if kv0.1 = k then (k, v) :: t else kv0 :: dictInsert t k v) by
      cases kv0; rfl]
    rw [if_neg hk0, ih hkt, List.cons_append]

theorem dictGet_insert_self (d : List (Str × Str)) (k v : Str) :
    dictGet (dictInsert d k v) k = some v := by
  induction d with
  | nil => simp [dictInsert, dictGet]
  | cons kv0 t ih =>
    rw [show dictInsert (kv0 :: t) k v =
        (if kv0.1 = k then (k, v) :: t else kv0 :: dictInsert t k v) by
      cases kv0; rfl]
    by_cases hk : kv0.1 = k
    · rw [if_pos hk]
      simp [dictGet]
    · rw [if_neg hk]
      rw [show dictGet (kv0 :: dictInsert t k v) k =
          (if kv0.1 = k then some kv0.2 else dictGet (dictInsert t k v) k) by
        cases kv0; rfl]
      rw [if_neg hk, ih]

theorem splitFirstEq_append {k : Str} (hk : '=' ∉ k) (v : Str) :
    splitFirstEq (k ++ '=' :: v) = some (k, v) := by
  induction k with
  | nil => simp [splitFirstEq]
  | cons c t ih =>
    have hc : c ≠ '=' := fun h => hk (h ▸ List.mem_cons_self c t)
    have ht : '=' ∉ t := fun h => hk (List.mem_cons_of_mem c h)
    rw [List.cons_append, splitFirstEq]
    simp only [hc, if_false]
    rw [ih ht]
    rfl

theorem splitFirstEq_shape :
    ∀ {l : Str} {kv : Str × Str},
      splitFirstEq l = some kv → l = kv.1 ++ '=' :: kv.2 ∧ '=' ∉ kv.1 := by
  intro l
  induction l with
  | nil => simp [splitFirstEq]
  | cons c t ih =>
    intro kv h
    rw [splitFirstEq] at h
    by_cases hc : c = '='
    · rw [if_pos hc] at h
      simp only [Option.some.injEq] at h
      rw [← h, hc]
      simp
    · rw [if_neg hc] at h
      cases hsp : splitFirstEq t with
      | none =>
        rw [hsp] at h
        simp at h
      | some kv2 =>
        rw [hsp] at h
        simp only [Option.map_some', Option.some.injEq] at h
        rcases ih hsp with ⟨h1, h2⟩
        rw [← h]
        constructor
        · rw [List.cons_append, ← h1]
        · intro hmem
          rcases List.mem_cons.mp hmem with h3 | h4
          · exact hc h3.symm
          · exact h2 h4

theorem loadData_mem_origin {k v : Str} :
    ∀ {ls : List Str} {acc : List (Str × Str)},
      (k, v) ∈ List.foldl parseLine acc ls →
      (k, v) ∈ acc ∨ ∃ l ∈ ls, (pyStrip l).head? ≠ some '#' ∧
        splitFirstEq (pyStrip l) = some (k, v) := by
  intro ls
  induction ls with
  | nil =>
    intro acc h
    exact Or.inl h
  | cons l t ih =>
    intro acc h
    rw [List.foldl_cons] at h
    rcases ih h with h1 | ⟨l2, hl2, hp⟩
    · rw [parseLine] at h1
      by_cases hh : (pyStrip l).head? = some '#'
      · rw [if_pos hh] at h1
        exact Or.inl h1
      · rw [if_neg hh] at h1
        cases hsp : splitFirstEq (pyStrip l) with
        | none =>
          rw [hsp] at h1
          exact Or.inl h1
        | some kv =>
          rw [hsp] at h1
          rcases dictInsert_mem h1 with h2 | h3
          · refine Or.inr ⟨l, List.mem_cons_self l t, hh, ?_⟩
            rw [hsp, h2]
          · exact Or.inl h3
    · exact Or.inr ⟨l2, List.mem_cons_of_mem l hl2, hp⟩

theorem foldl_dictInsert_fresh :
    ∀ (m acc : List (Str × Str)),
      (∀ kv ∈ m, kv.1 ∉ acc.map Prod.fst) → (m.map Prod.fst).Nodup →
      m.foldl (fun d kv => dictInsert d kv.1 kv.2) acc = acc ++ m := by
  intro m
  induction m with
  | nil => simp
  | cons kv t ih =>
    intro acc hfresh hnd
    rw [List.foldl_cons, dictInsert_fresh (hfresh kv (List.mem_cons_self kv t))]
    rw [List.map_cons, List.nodup_cons] at hnd
    have hfresh2 : ∀ kv2 ∈ t, kv2.1 ∉ (acc ++ [kv]).map Prod.fst := by
      intro kv2 h2
      rw [List.map_append, List.mem_append]
      rintro (hA | hB)
      · exact hfresh kv2 (List.mem_cons_of_mem kv h2) hA
      · simp only [List.map_cons, List.map_nil, List.mem_singleton] at hB
        exact hnd.1 (hB ▸ List.mem_map_of_mem Prod.fst h2)
    rw [ih (acc ++ [kv]) hfresh2 hnd.2, List.append_assoc, List.singleton_append]

theorem foldl_parse_saved :
    ∀ (m acc : List (Str × Str)),
      (∀ kv ∈ m, '=' ∉ kv.1 ∧
        pyStrip (kv.1 ++ '=' :: kv.2) = kv.1 ++ '=' :: kv.2 ∧
        (kv.1 ++ '=' :: kv.2).head? ≠ some '#') →
      List.foldl parseLine acc
        ((m.map (fun kv => kv.1 ++ '=' :: kv.2)).map (fun l => l ++ ['\n'])) =
      m.foldl (fun d kv => dictInsert d kv.1 kv.2) acc := by
  intro m
  induction m with
  | nil =>
    intro acc h
    rfl
  | cons kv t ih =>
    intro acc h
    have hkv := h kv (List.mem_cons_self kv t)
    simp only [List.map_cons, List.foldl_cons]
    have hline : parseLine acc ((kv.1 ++ '=' :: kv.2) ++ ['\n']) = dictInsert acc kv.1 kv.2 := by
      rw [parseLine, pyStrip_append_newline, hkv.2.1, if_neg hkv.2.2,
        splitFirstEq_append hkv.1]
    rw [hline]
    exact ih (dictInsert acc kv.1 kv.2) (fun kv2 h2 => h kv2 (List.mem_cons_of_mem kv h2))

/-! Supporting lemmas about construction and the registered-servers loop. -/

theorem constructOk_iff (env : Env) (p : Str) :
    constructOk env p = true ↔ ∃ s, constructServer env p = .ok s := by
  rw [constructOk]
  cases hc : constructServer env p with
  | ok s => simp
  | error e => simp

theorem constructMissing_iff (env : Env) (p : Str) :
    constructMissing env p = true ↔ constructServer env p = .error .notFound := by
  rw [constructMissing]
  cases hc : constructServer env p with
  | ok s => simp
  | error e => cases e <;> simp

theorem constructOk_not_missing {env : Env} {p : Str} (h : constructOk env p = true) :
    constructMissing env p = false := by
  rcases (constructOk_iff env p).mp h with ⟨s, hc⟩
  rw [constructMissing, hc]

theorem grsGo_ok (env : Env) :
    ∀ ps : List Str,
      (∀ p ∈ ps, constructOk env p = true ∨ constructMissing env p = true) →
      grsGo env ps = .ok (ps.filterMap (fun p => okPart (constructServer env p)),
        ps.filter (fun p => constructMissing env p),
        (ps.filter (fun p => constructMissing env p)).map warnMsg) := by
  intro ps
  induction ps with
  | nil =>
    intro h
    rfl
  | cons p t ih =>
    intro h
    have hrest := ih (fun q hq => h q (List.mem_cons_of_mem p hq))
    rcases h p (List.mem_cons_self p t) with hok | hmiss
    · rcases (constructOk_iff env p).mp hok with ⟨s, hc⟩
      have hmf : constructMissing env p = false := constructOk_not_missing hok
      simp [grsGo, hc, hrest, List.filterMap_cons, List.filter_cons, hmf, okPart]
    · have hc := (constructMissing_iff env p).mp hmiss
      simp [grsGo, hc, hrest, List.filterMap_cons, List.filter_cons, hmiss, okPart]

theorem grsGo_error (env : Env) :
    ∀ (ps : List Str) (p : Str) (e : CErr), p ∈ ps → constructServer env p = .error e →
      e ≠ .notFound → ∃ eo, grsGo env ps = .error eo := by
  intro ps
  induction ps with
  | nil =>
    intro p e hp
    simp at hp
  | cons q t ih =>
    intro p e hp hc hne
    cases hcq : constructServer env q with
    | ok s =>
      have hpt : p ∈ t := by
        rcases List.mem_cons.mp hp with h1 | h2
        · rw [h1] at hc
          exact absurd (hc.symm.trans hcq) (by simp)
        · exact h2
      rcases ih p e hpt hc hne with ⟨eo, heo⟩
      exact ⟨eo, by simp [grsGo, hcq, heo]⟩
    | error e2 =>
      cases e2 with
      | notFound =>
        have hpt : p ∈ t := by
          rcases List.mem_cons.mp hp with h1 | h2
          · rw [h1] at hc
            have := hc.symm.trans hcq
            simp only [Except.error.injEq] at this
            exact absurd this hne
          · exact h2
        rcases ih p e hpt hc hne with ⟨eo, heo⟩
        exact ⟨eo, by simp [grsGo, hcq, heo]⟩
      | exitNoJar => exact ⟨.exitNoJar, by simp [grsGo, hcq]⟩
      | exitCancelled => exact ⟨.exitCancelled, by simp [grsGo, hcq]⟩

theorem unregister_paths_nil (rc : Option Str) :
    Server.unregister_paths rc [] = rc := by
  simp [Server.unregister_paths]

theorem grs_ok (env : Env) (rc : Option Str)
    (h : ∀ p ∈ Server.get_cached_server_paths rc,
      constructOk env p = true ∨ constructMissing env p = true) :
    Server.get_registered_servers env rc =
      .ok ((Server.get_cached_server_paths rc).filterMap
             (fun p => okPart (constructServer env p)),
           Server.unregister_paths rc
             ((Server.get_cached_server_paths rc).filter
               (fun p => constructMissing env p)),
           ((Server.get_cached_server_paths rc).filter
             (fun p => constructMissing env p)).map warnMsg) := by
  rw [Server.get_registered_servers, grsGo_ok env (Server.get_cached_server_paths rc) h]

/-! The claims. -/

/-- C1, counterexample: with the stale path `"g"` in the registry, a
registration attempt that fails with the id conflict nonetheless rewrites the
registry file (the embedded listing prunes `"g"`), so the registry is NOT left
unchanged by every failing registration attempt. -/
theorem register_conflict_rewrites_registry :
    (Server.register envA rcStale selfB).2.2 = RegStatus.conflict ∧
    (Server.register envA rcStale selfB).1 ≠ rcStale := by decide

/-- C1, amended: if some already-registered entity (the first one sharing the
derived id) has a different canonical path, `register` fails with the id
conflict, reporting the id and the conflicting path, and appends nothing; and
provided every cached path still constructs successfully (so the embedded
listing prunes nothing), the registry file is left unchanged. -/
theorem register_id_conflict_amended (env : Env) (rc : Option Str)
    (self other : Server) (servers : List Server) (rcNew : Option Str)
    (diags : List Str)
    (hg : Server.get_registered_servers env rc = .ok (servers, rcNew, diags))
    (hf : servers.find? (fun o => decide (Server.id o = Server.id self)) = some other)
    (hp : other.path ≠ self.path)
    (hall : ∀ p ∈ Server.get_cached_server_paths rc, constructOk env p = true) :
    Server.register env rc self =
      (rc, diags ++ [conflictMsg (Server.id self) other.path], .conflict) ∧
    (∃ s t, conflictMsg (Server.id self) other.path = s ++ Server.id self ++ t) ∧
    (∃ s t, conflictMsg (Server.id self) other.path = s ++ other.path ++ t) := by
  have hge := grs_ok env rc (fun p hp2 => Or.inl (hall p hp2))
  have hfil : (Server.get_cached_server_paths rc).filter
      (fun p => constructMissing env p) = [] := by
    rw [List.filter_eq_nil_iff]
    intro p hp2
    simp [constructOk_not_missing (hall p hp2)]
  rw [hfil, unregister_paths_nil] at hge
  rw [hg] at hge
  simp only [Except.ok.injEq, Prod.mk.injEq] at hge
  refine ⟨?_, ?_, ?_⟩
  · rw [Server.register, hg]
    simp only [hf, if_neg hp, hge.2.1]
  · refine ⟨pstr r"mcsrv: ",
      pstr r": there is already a server with id " ++ Server.id self ++
        pstr r" at " ++ other.path ++ pstr r". rename this or that directory", ?_⟩
    simp [conflictMsg, List.append_assoc]
  · refine ⟨pstr r"mcsrv: " ++ Server.id self ++
      pstr r": there is already a server with id " ++ Server.id self ++ pstr r" at ",
      pstr r". rename this or that directory", ?_⟩
    simp [conflictMsg, List.append_assoc]

/-- C1, witness for the amended theorem at a concrete conflicting input. -/
theorem register_id_conflict_amended_witness :
    Server.register envA rcOne selfB =
      (rcOne, [conflictMsg (Server.id selfB) serverA.path], RegStatus.conflict) := by
  have h := (register_id_conflict_amended envA rcOne selfB serverA [serverA] rcOne []
    rfl rfl (by decide) (by decide)).1
  simpa using h

/-- C2, counterexample: for the mapping with the single entry
`"a=b" -> "c"`, `save` then `load` yields the entry `"a" -> "b=c"`, which is
not in the original mapping, so the result is not the restriction of the
mapping to any subset of its entries; moreover a key beginning with `'#'`
makes `save` emit a comment line, which `load` then drops. -/
theorem save_load_not_restriction :
    Server.loadData (some (Server.save_data [(pstr r"a=b", pstr r"c")])) =
      [(pstr r"a", pstr r"b=c")] ∧
    (pstr r"a", pstr r"b=c") ∉ [(pstr r"a=b", pstr r"c")] ∧
    Server.save_data [(pstr r"#x", pstr r"v")] = pstr r"#x=v" ++ ['\n'] ∧
    Server.loadData (some (Server.save_data [(pstr r"#x", pstr r"v")])) = [] := by
  decide

/-- C2, amended: `save(m)` followed by `load()` yields exactly `m` whenever
the keys of `m` are distinct and every serialized line `key=value` is free of
newlines, has no `'='` inside the key, does not begin with `'#'`, and is
unchanged by whitespace stripping. -/
theorem save_load_roundtrip (m : List (Str × Str))
    (hkeys : (m.map Prod.fst).Nodup)
    (hwf : ∀ kv ∈ m, '\n' ∉ kv.1 ∧ '\n' ∉ kv.2 ∧ '=' ∉ kv.1 ∧
      pyStrip (kv.1 ++ '=' :: kv.2) = kv.1 ++ '=' :: kv.2 ∧
      (kv.1 ++ '=' :: kv.2).head? ≠ some '#') :
    Server.loadData (some (Server.save_data m)) = m := by
  have hlines : ∀ l ∈ m.map (fun kv => kv.1 ++ '=' :: kv.2), '\n' ∉ l := by
    intro l hl
    rcases List.mem_map.mp hl with ⟨kv, hkv, hrfl⟩
    subst hrfl
    have h := hwf kv hkv
    intro hmem
    rcases List.mem_append.mp hmem with hA | hB
    · exact h.1 hA
    · rcases List.mem_cons.mp hB with h1 | h2
      · exact absurd h1 (by decide)
      · exact h.2.1 h2
  simp only [Server.loadData, Server.save_data]
  rw [readlines_joinLines hlines]
  rw [foldl_parse_saved m []
    (fun kv hkv => ⟨(hwf kv hkv).2.2.1, (hwf kv hkv).2.2.2.1, (hwf kv hkv).2.2.2.2⟩)]
  rw [foldl_dictInsert_fresh m [] (by simp) hkeys]
  simp

/-- C2, witness for the amended round trip at a concrete mapping. -/
theorem save_load_roundtrip_witness :
    Server.loadData (some (Server.save_data
      [(pstr r"jar", pstr r"x.jar"), (pstr r"ram", pstr r"4G")])) =
      [(pstr r"jar", pstr r"x.jar"), (pstr r"ram", pstr r"4G")] :=
  save_load_roundtrip _ (by decide) (by decide)

/-- C3, counterexample: the line `"=v"` splits into `["", "v"]`, which the
loader accepts, so an entry with an empty key does appear in the loaded
mapping. -/
theorem load_accepts_empty_key :
    Server.loadData (some (joinLines [pstr r"=v"])) = [(([] : Str), pstr r"v")] := by
  decide

/-- C3, amended: `load()` skips every line that (after stripping) begins with
`'#'` and every line containing no `'='`; every loaded entry `(k, v)` comes
from a non-comment line whose stripped form is `k ++ "=" ++ v` with no `'='`
inside `k` — but `k` may be empty and `v` may contain further `'='`
characters. -/
theorem load_entries_shape (c k v : Str)
    (h : (k, v) ∈ Server.loadData (some c)) :
    '=' ∉ k ∧ (readlines c).any (fun l =>
      decide (pyStrip l = k ++ '=' :: v) &&
      decide ((pyStrip l).head? ≠ some '#')) = true := by
  simp only [Server.loadData] at h
  rcases loadData_mem_origin h with h1 | ⟨l, hl, hh, hsp⟩
  · simp at h1
  · rcases splitFirstEq_shape hsp with ⟨h1, h2⟩
    refine ⟨h2, ?_⟩
    rw [List.any_eq_true]
    refine ⟨l, hl, ?_⟩
    simp only [Bool.and_eq_true, decide_eq_true_eq]
    exact ⟨h1, hh⟩

/-- C3, witness for the amended parser characterization at a concrete file. -/
theorem load_entries_shape_witness :
    '=' ∉ pstr r"a" ∧
    (readlines (joinLines [pstr r"a=b"])).any (fun l =>
      decide (pyStrip l = pstr r"a" ++ '=' :: pstr r"b") &&
      decide ((pyStrip l).head? ≠ some '#')) = true :=
  load_entries_shape (joinLines [pstr r"a=b"]) (pstr r"a") (pstr r"b") (by decide)

/-- C4, counterexample: for a running entity whose workload has a resident
memory of exactly `2 ^ 30` bytes, the code reports `1.07` (it divides by the
decimal `1000000000`), while the claimed gibibyte scaling
(`bytes / 2 ^ 30`, rounded to two decimals) would report `1.00`. -/
theorem get_stats_memory_not_gib :
    Server.get_stats screensStats spMem serverStats = some (5, 107 / 100) ∧
    round2 ((1073741824 : ℚ) / 2 ^ 30) = 1 ∧
    ((107 : ℚ) / 100) ≠ 1 := by
  refine ⟨?_, ?_, by norm_num⟩
  · simp only [Server.get_stats,
      show Server.screen_handle screensStats serverStats =
        some ⟨Server.screen_name serverStats, 7⟩ from rfl,
      show spMem.children 7 = [9] from rfl, List.head?_cons]
    have hcpu : spMem.cpuPercent 9 2 = 5 := rfl
    have hrss : ((spMem.rssBytes 9 : Nat) : ℚ) = 1073741824 := by
      norm_num [spMem]
    rw [hcpu, hrss, round2]
    norm_num
  · rw [round2]
    norm_num

/-- C4, amended: for every running entity, `getStats` queries the stats
provider for the FIRST child process of the bound session's pid, samples its
CPU over the fixed 2-second interval, and reports its resident memory divided
by the decimal `1000000000` (not by `2 ^ 30`), rounded to two decimal
places. -/
theorem get_stats_running_formula (screens : List Screen) (sp : StatsProvider)
    (self : Server) (scr : Screen) (child : Nat)
    (hscr : Server.screen_handle screens self = some scr)
    (hchild : (sp.children scr.pid).head? = some child) :
    Server.get_stats screens sp self =
      some (sp.cpuPercent child 2, round2 ((sp.rssBytes child : ℚ) / 1000000000)) := by
  simp only [Server.get_stats, hscr, hchild]

/-- C4, witness for the amended stats formula at a concrete running entity. -/
theorem get_stats_running_formula_witness :
    Server.get_stats screensStats spMem serverStats =
      some (spMem.cpuPercent 9 2, round2 ((spMem.rssBytes 9 : ℚ) / 1000000000)) :=
  get_stats_running_formula screensStats spMem serverStats
    ⟨Server.screen_name serverStats, 7⟩ 9 rfl rfl

/-- C5: for every entity with no live session of its derived session name,
`getStats` returns `(0, 0)`, and the result does not depend on the stats
provider at all (the provider is never consulted). -/
theorem get_stats_not_running (screens : List Screen) (sp sp2 : StatsProvider)
    (self : Server)
    (h : ∀ scr ∈ screens, scr.name ≠ Server.screen_name self) :
    Server.get_stats screens sp self = some (0, 0) ∧
    Server.get_stats screens sp self = Server.get_stats screens sp2 self := by
  have hh : Server.screen_handle screens self = none := by
    rw [Server.screen_handle, List.find?_eq_none]
    intro scr hs
    simp [h scr hs]
  constructor
  · rw [Server.get_stats, hh]
  · rw [Server.get_stats, hh, Server.get_stats, hh]

/-- C5, witness at an empty session directory and two distinct providers. -/
theorem get_stats_not_running_witness :
    Server.get_stats [] spTrivial serverStats = some (0, 0) ∧
    Server.get_stats [] spTrivial serverStats =
      Server.get_stats [] spMem serverStats :=
  get_stats_not_running [] spTrivial spMem serverStats (by simp)

/-- C6: when every cached path either constructs or fails only because its
directory is missing, `listRegisteredServers` returns one entity per
still-valid path in order, emits the warning diagnostic naming each missing
path, and rewrites the registry through `unregister` so that (when at least
one path was missing) the cached set afterwards holds exactly the surviving
paths; and any construction failure other than a missing directory makes the
whole listing fail instead of being pruned. -/
theorem get_registered_servers_prunes (env : Env) (rc : Option Str) :
    ((∀ p ∈ Server.get_cached_server_paths rc,
        constructOk env p = true ∨ constructMissing env p = true) →
      Server.get_registered_servers env rc =
        .ok ((Server.get_cached_server_paths rc).filterMap
               (fun p => okPart (constructServer env p)),
             Server.unregister_paths rc
               ((Server.get_cached_server_paths rc).filter
                 (fun p => constructMissing env p)),
             ((Server.get_cached_server_paths rc).filter
               (fun p => constructMissing env p)).map warnMsg) ∧
      (((Server.get_cached_server_paths rc).filter
          (fun p => constructMissing env p)) ≠ [] →
        ∀ x, x ∈ Server.get_cached_server_paths
                (Server.unregister_paths rc
                  ((Server.get_cached_server_paths rc).filter
                    (fun p => constructMissing env p))) ↔
          (x ∈ Server.get_cached_server_paths rc ∧ constructOk env x = true))) ∧
    (∀ p ∈ Server.get_cached_server_paths rc, ∀ e,
      constructServer env p = .error e → e ≠ .notFound →
      exceptIsOk (Server.get_registered_servers env rc) = false) := by
  constructor
  · intro hA
    refine ⟨grs_ok env rc hA, ?_⟩
    intro hne x
    rw [mem_cached_unregister hne x]
    constructor
    · rintro ⟨h1, h2⟩
      refine ⟨h1, ?_⟩
      rcases hA x h1 with hok | hmiss
      · exact hok
      · exact absurd (List.mem_filter.mpr ⟨h1, hmiss⟩) h2
    · rintro ⟨h1, h2⟩
      refine ⟨h1, ?_⟩
      intro hx
      rw [List.mem_filter] at hx
      rw [constructOk_not_missing h2] at hx
      simp at hx
  · intro p hp e hc hne
    rcases grsGo_error env (Server.get_cached_server_paths rc) p e hp hc hne with ⟨eo, heo⟩
    rw [Server.get_registered_servers, heo]
    rfl

/-- C6, witness: a registry with the stale path `"g"` and the valid path
`"a"` is pruned to the survivors; a registry whose path `"c"` fails with the
no-artifact exit makes the whole listing fail. -/
theorem get_registered_servers_prunes_witness :
    Server.get_registered_servers envA rcStale =
      .ok ((Server.get_cached_server_paths rcStale).filterMap
             (fun p => okPart (constructServer envA p)),
           Server.unregister_paths rcStale
             ((Server.get_cached_server_paths rcStale).filter
               (fun p => constructMissing envA p)),
           ((Server.get_cached_server_paths rcStale).filter
             (fun p => constructMissing envA p)).map warnMsg) ∧
    (pstr r"a" ∈ Server.get_cached_server_paths
        (Server.unregister_paths rcStale
          ((Server.get_cached_server_paths rcStale).filter
            (fun p => constructMissing envA p))) ↔
      (pstr r"a" ∈ Server.get_cached_server_paths rcStale ∧
        constructOk envA (pstr r"a") = true)) ∧
    exceptIsOk (Server.get_registered_servers envNoJar rcNoJar) = false :=
  ⟨((get_registered_servers_prunes envA rcStale).1 (by decide)).1,
   ((get_registered_servers_prunes envA rcStale).1 (by decide)).2 (by decide) (pstr r"a"),
   (get_registered_servers_prunes envNoJar rcNoJar).2 (pstr r"c") (by decide)
     CErr.exitNoJar rfl (by decide)⟩

/-- C7: re-registering an already-registered entity (the first registered
entity sharing its id has the same canonical path) succeeds as a no-op: the
registry file is unchanged (given that every cached path still constructs),
nothing is appended, and the registry keeps exactly one line for that path. -/
theorem register_idempotent (env : Env) (rc : Option Str) (self other : Server)
    (servers : List Server) (rcNew : Option Str) (diags : List Str)
    (hg : Server.get_registered_servers env rc = .ok (servers, rcNew, diags))
    (hf : servers.find? (fun o => decide (Server.id o = Server.id self)) = some other)
    (hp : other.path = self.path)
    (hall : ∀ p ∈ Server.get_cached_server_paths rc, constructOk env p = true)
    (hcount : (Server.get_cached_server_paths rc).count self.path = 1) :
    Server.register env rc self = (rc, diags, .idempotent) ∧
    (Server.get_cached_server_paths
      (Server.register env rc self).1).count self.path = 1 := by
  have hge := grs_ok env rc (fun p hp2 => Or.inl (hall p hp2))
  have hfil : (Server.get_cached_server_paths rc).filter
      (fun p => constructMissing env p) = [] := by
    rw [List.filter_eq_nil_iff]
    intro p hp2
    simp [constructOk_not_missing (hall p hp2)]
  rw [hfil, unregister_paths_nil] at hge
  rw [hg] at hge
  simp only [Except.ok.injEq, Prod.mk.injEq] at hge
  have hreg : Server.register env rc self = (rc, diags, .idempotent) := by
    rw [Server.register, hg]
    simp only [hf, if_pos hp, hge.2.1]
  refine ⟨hreg, ?_⟩
  rw [hreg]
  exact hcount

/-- C7, witness: re-registering the entity at `"a"` over a registry that
already holds `"a"` once. -/
theorem register_idempotent_witness :
    Server.register envA rcOne serverA = (rcOne, [], RegStatus.idempotent) ∧
    (Server.get_cached_server_paths
      (Server.register envA rcOne serverA).1).count serverA.path = 1 :=
  register_idempotent envA rcOne serverA serverA [serverA] rcOne []
    rfl rfl rfl (by decide) (by decide)

/-- C8: `unregister` with an empty set leaves the registry file untouched;
with a non-empty set, the cached set afterwards is exactly the previous set
minus the removed paths (order carries no meaning); removing paths none of
which are registered leaves the registered set unchanged. -/
theorem unregister_paths_set_semantics (rc : Option Str) (paths : List Str) :
    Server.unregister_paths rc [] = rc ∧
    (paths ≠ [] →
      ∀ x, x ∈ Server.get_cached_server_paths (Server.unregister_paths rc paths) ↔
        (x ∈ Server.get_cached_server_paths rc ∧ x ∉ paths)) ∧
    ((∀ q ∈ paths, q ∉ Server.get_cached_server_paths rc) →
      ∀ x, x ∈ Server.get_cached_server_paths (Server.unregister_paths rc paths) ↔
        x ∈ Server.get_cached_server_paths rc) := by
  refine ⟨unregister_paths_nil rc, fun hne x => mem_cached_unregister hne x, ?_⟩
  intro hdisj x
  by_cases hne : paths = []
  · subst hne
    rw [unregister_paths_nil]
  · rw [mem_cached_unregister hne x]
    constructor
    · exact fun h => h.1
    · intro h
      exact ⟨h, fun hx => hdisj x hx h⟩

/-- C8, witness at a two-entry registry and an unregistered path `"z"`. -/
theorem unregister_paths_set_semantics_witness :
    Server.unregister_paths rcTwo [] = rcTwo ∧
    (pstr r"a" ∈ Server.get_cached_server_paths
        (Server.unregister_paths rcTwo [pstr r"z"]) ↔
      (pstr r"a" ∈ Server.get_cached_server_paths rcTwo ∧
        pstr r"a" ∉ [pstr r"z"])) :=
  ⟨(unregister_paths_set_semantics rcTwo []).1,
   (unregister_paths_set_semantics rcTwo [pstr r"z"]).2.1 (by decide) (pstr r"a")⟩

/-- C9: the `ram` setter validates the token first; on rejection it raises
and neither the in-memory mapping nor the metadata file changes; on success
the normalized token is stored under the key `"ram"` and the metadata file is
rewritten from the new mapping before the setter returns. -/
theorem setRam_validates (self : Server) (file : Option Str) (val : Str) :
    (check_ram_argument val = none → Server.setRam self file val = ⟨self, file, true⟩) ∧
    (∀ norm, check_ram_argument val = some norm →
      Server.setRam self file val =
        ⟨⟨self.path, dictInsert self.data ramKey norm, self.jar⟩,
         some (Server.save_data (dictInsert self.data ramKey norm)), false⟩ ∧
      dictGet (dictInsert self.data ramKey norm) ramKey = some norm) := by
  constructor
  · intro h
    rw [Server.setRam, h]
  · intro norm h
    exact ⟨by rw [Server.setRam, h], dictGet_insert_self self.data ramKey norm⟩

/-- C9, witness: `"4"` (no unit) is rejected with no mutation; `"4g"` is
normalized to `"4G"`, stored, and the file is rewritten. -/
theorem setRam_validates_witness :
    Server.setRam serverRam none (pstr r"4") = ⟨serverRam, none, true⟩ ∧
    Server.setRam serverRam none (pstr r"4g") =
      ⟨⟨serverRam.path, dictInsert serverRam.data ramKey (pstr r"4G"), serverRam.jar⟩,
       some (Server.save_data (dictInsert serverRam.data ramKey (pstr r"4G"))), false⟩ ∧
    check_ram_argument (pstr r"4g") = some (pstr r"4G") :=
  ⟨(setRam_validates serverRam none (pstr r"4")).1 (by decide),
   ((setRam_validates serverRam none (pstr r"4g")).2 (pstr r"4G") (by decide)).1,
   by decide⟩

/-- C10: for every running entity whose bound session process has no child
processes, `getStats` performs the unguarded `children()[0]` on an empty
list, so it fails (`IndexError`) rather than returning a value. -/
theorem get_stats_childless_crashes (screens : List Screen) (sp : StatsProvider)
    (self : Server) (scr : Screen)
    (hscr : Server.screen_handle screens self = some scr)
    (hkids : sp.children scr.pid = []) :
    Server.running screens self = true ∧
    Server.get_stats screens sp self = none := by
  constructor
  · rw [Server.running, hscr]
    rfl
  · simp only [Server.get_stats, hscr, hkids, List.head?_nil]

/-- C10, witness: a live session whose process has no children makes
`getStats` hit the error branch. -/
theorem get_stats_childless_crashes_witness :
    Server.running screensStats serverStats = true ∧
    Server.get_stats screensStats spTrivial serverStats = none :=
  get_stats_childless_crashes screensStats spTrivial serverStats
    ⟨Server.screen_name serverStats, 7⟩ rfl rfl

end Mcsrv
